import Mathlib

/-!
Verification of the EIP-55 checksum formatter in src/checksum.py.

The source is a single Python function, to_checksum_address, that
validates a hexadecimal account address and applies mixed-case
checksumming.  We embed it shallowly: Python strings become lists of
character codes (Nat), the two raised errors (TypeError, ValueError)
become an Err sum delivered through Except, and the external hash
collaborator (eth_hash keccak, a library capability, not code of this
repository) becomes an explicit function parameter constrained by
KeccakSpec, the contract the spec states for it: a deterministic
32-byte digest.  Every character the source lowercases or uppercases
is a validated ASCII hex character, so the ASCII-range case maps model
str.lower and str.upper faithfully on all reachable inputs, and
str.encode ascii is the identity on the character codes.
-/

namespace EIP55

/-- A Python value handed to the function: either a string, modelled as
the list of its character codes, or any non-string value, which the
function rejects before looking at anything else. -/
inductive Value where
| str (s : List Nat) : Value
| nonStr : Value
deriving DecidableEq

/-- The two error kinds the source raises: TypeError for a non-string
argument and ValueError for a malformed address. -/
inductive Err where
| invalidInputType : Err
| invalidFormat : Err
deriving DecidableEq

/-- ASCII lowercasing of a character code, the action of str.lower on
every character reachable in the source (validated hex, hence ASCII). -/
def pyLower (c : Nat) : Nat := if 65 ≤ c ∧ c ≤ 90 then c + 32 else c

/-- ASCII uppercasing of a character code, the action of str.upper on
every character reachable in the source. -/
def pyUpper (c : Nat) : Nat := if 97 ≤ c ∧ c ≤ 122 then c - 32 else c

/-- Membership in the character class of the validation pattern:
digits 0-9 (codes 48-57), a-f (97-102), A-F (65-70). -/
def isHexDigit (c : Nat) : Bool :=
  (48 ≤ c && c ≤ 57) || (97 ≤ c && c ≤ 102) || (65 ≤ c && c ≤ 70)

/-- The validation check of the source: re.fullmatch of forty
characters drawn from the hex alphabet. -/
def validBody (l : List Nat) : Bool := l.length == 40 && l.all isHexDigit

/-- The marker stripping of the source: if address.startswith 0x then
address becomes address[2:].  Codes 48 and 120 are the characters 0
and lowercase x. -/
def strip0x (l : List Nat) : List Nat :=
  if l.take 2 = [48, 120] then l.drop 2 else l

/-- Numeric value of a hexadecimal digit character, as int(c, 16); the
source only applies it to digest characters, which are hex. -/
def hexVal (c : Nat) : Nat :=
  if 48 ≤ c ∧ c ≤ 57 then c - 48
  else if 97 ≤ c ∧ c ≤ 102 then c - 87
  else if 65 ≤ c ∧ c ≤ 70 then c - 55
  else 0

/-- Lowercase hexadecimal character of a nibble value below 16. -/
def nibbleChar (n : Nat) : Nat := if n < 10 then 48 + n else 87 + n

/-- bytes.hex(): each byte rendered as two lowercase hex characters,
high nibble first. -/
def bytesToHex (bs : List Nat) : List Nat :=
  bs.foldr (fun b acc => nibbleChar (b / 16) :: nibbleChar (b % 16) :: acc) []

/-- Contract of the external hash collaborator, eth_hash keccak, which
the spec describes as accepting an arbitrary byte sequence and
returning a 32-byte digest. -/
def KeccakSpec (keccak : List Nat → List Nat) : Prop :=
  ∀ bs, (keccak bs).length = 32 ∧ ∀ b ∈ keccak bs, b < 256

/-- The checksumming loop of the source: iterate the lowercased body
with its enumerate index, uppercasing the character exactly when the
digest nibble at the same index is at least 8. -/
def checksummed (digest : List Nat) : Nat → List Nat → List Nat
| _, [] => []
| i, c :: rest =>
  (if 8 ≤ hexVal (digest.getD i 48) then pyUpper c else c) :: checksummed digest (i + 1) rest

/-- The whole function, paired with the list of inputs it passes to the
hash collaborator during the call, in order.  The first component is
the returned value or raised error; the second records every hash
invocation, so that the claim that rejected inputs are never hashed is
statable. -/
def to_checksum_address_run (keccak : List Nat → List Nat) :
    Value → Except Err (List Nat) × List (List Nat)
| .nonStr => (.error .invalidInputType, [])
| .str address0 =>
  let address := strip0x address0
  if validBody address then
    let address_lower := address.map pyLower
    let address_hash := bytesToHex (keccak address_lower)
    (.ok (48 :: 120 :: checksummed address_hash 0 address_lower), [address_lower])
  else (.error .invalidFormat, [])

/-- The returned value or raised error of to_checksum_address. -/
def to_checksum_address (keccak : List Nat → List Nat) (v : Value) : Except Err (List Nat) :=
  (to_checksum_address_run keccak v).1

/-- The hash-collaborator invocations a call performs. -/
def hashCalls (keccak : List Nat → List Nat) (v : Value) : List (List Nat) :=
  (to_checksum_address_run keccak v).2

/-- A concrete hash collaborator used to instantiate the abstract
parameter in witnesses: it satisfies KeccakSpec and is computable. -/
def keccak0 : List Nat → List Nat := fun _ => List.replicate 32 0

/-- A concrete valid address body: forty lowercase a characters. -/
def exBody : List Nat := List.replicate 40 97

theorem keccak0_spec : KeccakSpec keccak0 := by
  intro bs
  refine ⟨by simp [keccak0], ?_⟩
  intro b hb
  simp [keccak0, List.eq_of_mem_replicate hb]

/-! Character-level facts.  Hex characters are digits, lowercase hex
letters, or uppercase hex letters; lowering sends them to the first two
classes, and case maps are inverse to each other there. -/

theorem isHexDigit_iff (c : Nat) :
    isHexDigit c = true ↔
      (48 ≤ c ∧ c ≤ 57) ∨ (97 ≤ c ∧ c ≤ 102) ∨ (65 ≤ c ∧ c ≤ 70) := by
  simp only [isHexDigit, Bool.or_eq_true, Bool.and_eq_true, decide_eq_true_eq]
  omega

theorem pyLower_lowHex (c : Nat) (h : isHexDigit c = true) :
    (48 ≤ pyLower c ∧ pyLower c ≤ 57) ∨ (97 ≤ pyLower c ∧ pyLower c ≤ 102) := by
  rw [isHexDigit_iff] at h
  unfold pyLower
  split <;> omega

theorem pyLower_fix_of_lowHex (c : Nat)
    (h : (48 ≤ c ∧ c ≤ 57) ∨ (97 ≤ c ∧ c ≤ 102)) : pyLower c = c := by
  unfold pyLower
  split <;> omega

theorem pyLower_pyUpper_of_lowHex (c : Nat)
    (h : (48 ≤ c ∧ c ≤ 57) ∨ (97 ≤ c ∧ c ≤ 102)) : pyLower (pyUpper c) = c := by
  unfold pyLower pyUpper
  split <;> split <;> omega

theorem pyLower_pyLower (c : Nat) : pyLower (pyLower c) = pyLower c := by
  unfold pyLower
  split <;> (try split) <;> omega

theorem pyLower_pyUpper (c : Nat) : pyLower (pyUpper c) = pyLower c := by
  unfold pyLower pyUpper
  split <;> (try split) <;> (try split) <;> omega

theorem isHexDigit_pyLower (c : Nat) (h : isHexDigit c = true) :
    isHexDigit (pyLower c) = true := by
  rw [isHexDigit_iff] at h ⊢
  unfold pyLower
  split <;> omega

theorem isHexDigit_pyUpper (c : Nat) (h : isHexDigit c = true) :
    isHexDigit (pyUpper c) = true := by
  rw [isHexDigit_iff] at h ⊢
  unfold pyUpper
  split <;> omega

theorem isHexDigit_of_lowHex (c : Nat)
    (h : (48 ≤ c ∧ c ≤ 57) ∨ (97 ≤ c ∧ c ≤ 102)) : isHexDigit c = true := by
  rw [isHexDigit_iff]
  omega

/-! Validation and marker stripping. -/

theorem validBody_iff (l : List Nat) :
    validBody l = true ↔ l.length = 40 ∧ ∀ c ∈ l, isHexDigit c = true := by
  simp [validBody, List.all_eq_true]

theorem strip0x_cons_marker (l : List Nat) : strip0x (48 :: 120 :: l) = l := rfl

theorem strip0x_eq_self (l : List Nat) (h : l.getD 1 0 ≠ 120) : strip0x l = l := by
  unfold strip0x
  split
  case isTrue ht =>
    exfalso
    cases l with
    | nil => simp at ht
    | cons a t =>
      cases t with
      | nil => simp at ht
      | cons b r =>
        simp at ht
        apply h
        simp [List.getD_cons_succ, List.getD_cons_zero, ht.2]
  case isFalse => rfl

theorem validBody_snd_ne_x (l : List Nat) (h : validBody l = true) : l.getD 1 0 ≠ 120 := by
  obtain ⟨hlen, hall⟩ := (validBody_iff l).mp h
  have h1 : (1 : Nat) < l.length := by omega
  have hmem : l.getD 1 0 ∈ l := by
    rw [List.getD_eq_getElem l 0 h1]
    exact List.getElem_mem h1
  have hx := (isHexDigit_iff _).mp (hall _ hmem)
  omega

theorem strip0x_of_validBody (l : List Nat) (h : validBody l = true) : strip0x l = l :=
  strip0x_eq_self l (validBody_snd_ne_x l h)

theorem validBody_map_pyLower (l : List Nat) (h : validBody l = true) :
    validBody (l.map pyLower) = true := by
  rw [validBody_iff] at h ⊢
  refine ⟨by simp [h.1], ?_⟩
  intro c hc
  obtain ⟨a, ha, rfl⟩ := List.mem_map.mp hc
  exact isHexDigit_pyLower a (h.2 a ha)

theorem validBody_map_pyUpper (l : List Nat) (h : validBody l = true) :
    validBody (l.map pyUpper) = true := by
  rw [validBody_iff] at h ⊢
  refine ⟨by simp [h.1], ?_⟩
  intro c hc
  obtain ⟨a, ha, rfl⟩ := List.mem_map.mp hc
  exact isHexDigit_pyUpper a (h.2 a ha)

/-! Facts about the checksumming loop. -/

theorem checksummed_length (digest : List Nat) (l : List Nat) :
    ∀ i, (checksummed digest i l).length = l.length := by
  induction l with
  | nil => intro i; rfl
  | cons c rest ih => intro i; simp [checksummed, ih]

theorem checksummed_getD (digest : List Nat) (l : List Nat) :
    ∀ i j, j < l.length →
      (checksummed digest i l).getD j 0 =
        if 8 ≤ hexVal (digest.getD (i + j) 48) then pyUpper (l.getD j 0) else l.getD j 0 := by
  induction l with
  | nil => intro i j hj; simp at hj
  | cons c rest ih =>
    intro i j hj
    cases j with
    | zero => simp [checksummed]
    | succ j =>
      have hrec := ih (i + 1) j (by simpa using hj)
      have harith : i + 1 + j = i + (j + 1) := by omega
      rw [harith] at hrec
      simpa [checksummed, List.getD_cons_succ] using hrec

theorem checksummed_map_pyLower (digest : List Nat) (l : List Nat)
    (hl : ∀ c ∈ l, (48 ≤ c ∧ c ≤ 57) ∨ (97 ≤ c ∧ c ≤ 102)) :
    ∀ i, (checksummed digest i l).map pyLower = l := by
  induction l with
  | nil => intro i; rfl
  | cons c rest ih =>
    intro i
    have hc := hl c (by simp)
    have hrest : ∀ x ∈ rest, (48 ≤ x ∧ x ≤ 57) ∨ (97 ≤ x ∧ x ≤ 102) := by
      intro x hx
      exact hl x (by simp [hx])
    have hhead : pyLower (if 8 ≤ hexVal (digest.getD i 48) then pyUpper c else c) = c := by
      split
      · exact pyLower_pyUpper_of_lowHex c hc
      · exact pyLower_fix_of_lowHex c hc
    simp only [checksummed, List.map_cons, hhead, ih hrest (i + 1)]

theorem checksummed_all_hex (digest : List Nat) (l : List Nat)
    (hl : ∀ c ∈ l, isHexDigit c = true) :
    ∀ i, ∀ c ∈ checksummed digest i l, isHexDigit c = true := by
  induction l with
  | nil => intro i c hc; simp [checksummed] at hc
  | cons a rest ih =>
    intro i c hc
    have ha := hl a (by simp)
    have hrest : ∀ x ∈ rest, isHexDigit x = true := by
      intro x hx
      exact hl x (by simp [hx])
    simp only [checksummed, List.mem_cons] at hc
    rcases hc with rfl | hc
    · split
      · exact isHexDigit_pyUpper a ha
      · exact ha
    · exact ih hrest (i + 1) c hc

/-- The normalized body of a valid input: forty characters, each a digit
or a lowercase hex letter. -/
theorem body_facts (s : List Nat) (h : validBody (strip0x s) = true) :
    ((strip0x s).map pyLower).length = 40 ∧
      ∀ c ∈ (strip0x s).map pyLower, (48 ≤ c ∧ c ≤ 57) ∨ (97 ≤ c ∧ c ≤ 102) := by
  obtain ⟨hlen, hall⟩ := (validBody_iff _).mp h
  refine ⟨by simp [hlen], ?_⟩
  intro c hc
  obtain ⟨a, ha, rfl⟩ := List.mem_map.mp hc
  exact pyLower_lowHex a (hall a ha)

theorem bytesToHex_length (bs : List Nat) : (bytesToHex bs).length = 2 * bs.length := by
  induction bs with
  | nil => rfl
  | cons b rest ih => simp [bytesToHex] at ih ⊢; omega

/-! Unfoldings of the function on accepted and on malformed string
inputs. -/

theorem run_ok (k : List Nat → List Nat) (s : List Nat) (h : validBody (strip0x s) = true) :
    to_checksum_address_run k (.str s) =
      (.ok (48 :: 120 ::
          checksummed (bytesToHex (k ((strip0x s).map pyLower))) 0 ((strip0x s).map pyLower)),
        [(strip0x s).map pyLower]) := by
  simp [to_checksum_address_run, h]

theorem run_err (k : List Nat → List Nat) (s : List Nat)
    (h : validBody (strip0x s) = false) :
    to_checksum_address_run k (.str s) = (.error .invalidFormat, []) := by
  simp [to_checksum_address_run, h]

/-- Claim C1: for every accepted input, the output character at body
position i equals the uppercase form of the Normalized Address
character at position i when the digest character at position i has
nibble value at least 8, and equals that character unchanged
otherwise; the digest is the 64-character lowercase hex rendering of
the 256-bit hash of the ASCII bytes of the Normalized Address. -/
theorem C1_nibble_casing (k : List Nat → List Nat) (hk : KeccakSpec k) (s : List Nat)
    (h : validBody (strip0x s) = true) (i : Nat) (hi : i < 40) :
    ∃ out, to_checksum_address k (.str s) = .ok out ∧
      (bytesToHex (k ((strip0x s).map pyLower))).length = 64 ∧
      out.getD (2 + i) 0 =
        (if 8 ≤ hexVal ((bytesToHex (k ((strip0x s).map pyLower))).getD i 48)
          then pyUpper (((strip0x s).map pyLower).getD i 0)
          else ((strip0x s).map pyLower).getD i 0) := by
  obtain ⟨hblen, hbhex⟩ := body_facts s h
  refine ⟨48 :: 120 ::
      checksummed (bytesToHex (k ((strip0x s).map pyLower))) 0 ((strip0x s).map pyLower),
    ?_, ?_, ?_⟩
  · simp [to_checksum_address, run_ok k s h]
  · rw [bytesToHex_length, (hk _).1]
  · rw [show 2 + i = i + 1 + 1 by omega, List.getD_cons_succ, List.getD_cons_succ]
    have hrec := checksummed_getD (bytesToHex (k ((strip0x s).map pyLower)))
      ((strip0x s).map pyLower) 0 i (by rw [hblen]; exact hi)
    simpa using hrec

/-- Witness for C1 at the concrete collaborator keccak0, the body of
forty a characters, and position 0. -/
theorem C1_witness :
    ∃ out, to_checksum_address keccak0 (.str exBody) = .ok out ∧
      (bytesToHex (keccak0 ((strip0x exBody).map pyLower))).length = 64 ∧
      out.getD (2 + 0) 0 =
        (if 8 ≤ hexVal ((bytesToHex (keccak0 ((strip0x exBody).map pyLower))).getD 0 48)
          then pyUpper (((strip0x exBody).map pyLower).getD 0 0)
          else ((strip0x exBody).map pyLower).getD 0 0) :=
  C1_nibble_casing keccak0 keccak0_spec exBody (by decide) 0 (by decide)

/-- Claim C2: the function fails with InvalidInputType exactly when the
value is not a string, fails with InvalidFormat exactly when the value
is a string whose body after optional marker removal is not forty hex
characters, and returns a result in every other case; no other error
condition exists. -/
theorem C2_error_classification (k : List Nat → List Nat) (v : Value) :
    (to_checksum_address k v = .error .invalidInputType ↔ v = .nonStr) ∧
    (to_checksum_address k v = .error .invalidFormat ↔
      ∃ s, v = .str s ∧ validBody (strip0x s) = false) ∧
    ∀ s, v = .str s → validBody (strip0x s) = true →
      ∃ out, to_checksum_address k v = .ok out := by
  cases v with
  | nonStr =>
    refine ⟨by simp [to_checksum_address, to_checksum_address_run], ?_, ?_⟩
    · constructor
      · intro hc
        simp [to_checksum_address, to_checksum_address_run] at hc
      · rintro ⟨s, hs, -⟩
        exact absurd hs (by simp)
    · intro s hs
      exact absurd hs (by simp)
  | str s =>
    cases hvb : validBody (strip0x s) with
    | false =>
      refine ⟨?_, ?_, ?_⟩
      · simp [to_checksum_address, run_err k s hvb]
      · simp only [to_checksum_address, run_err k s hvb]
        constructor
        · intro _
          exact ⟨s, rfl, hvb⟩
        · intro _
          trivial
      · intro s2 hs2 hv2
        injection hs2 with hss
        subst hss
        rw [hv2] at hvb
        exact absurd hvb (by simp)
    | true =>
      refine ⟨?_, ?_, ?_⟩
      · simp [to_checksum_address, run_ok k s hvb]
      · constructor
        · intro hc
          simp [to_checksum_address, run_ok k s hvb] at hc
        · rintro ⟨s2, hs2, hf⟩
          injection hs2 with hss
          subst hss
          rw [hf] at hvb
          exact absurd hvb (by simp)
      · intro s2 hs2 _
        injection hs2 with hss
        subst hss
        exact ⟨48 :: 120 ::
            checksummed (bytesToHex (k ((strip0x s).map pyLower))) 0 ((strip0x s).map pyLower),
          by simp [to_checksum_address, run_ok k s hvb]⟩

/-- Witness for C2: the concrete body of forty a characters is accepted
by the success clause of the classification. -/
theorem C2_witness : ∃ out, to_checksum_address keccak0 (.str exBody) = .ok out :=
  (C2_error_classification keccak0 (.str exBody)).2.2 exBody rfl (by decide)

/-- Claim C3: for every accepted input, lowercasing every character of
the output yields exactly the marker 0x followed by the lowercased
body: checksumming never changes which hex digit a position holds. -/
theorem C3_digit_preservation (k : List Nat → List Nat) (s : List Nat)
    (h : validBody (strip0x s) = true) :
    ∃ out, to_checksum_address k (.str s) = .ok out ∧
      out.map pyLower = 48 :: 120 :: (strip0x s).map pyLower := by
  obtain ⟨hblen, hbhex⟩ := body_facts s h
  refine ⟨48 :: 120 ::
      checksummed (bytesToHex (k ((strip0x s).map pyLower))) 0 ((strip0x s).map pyLower),
    ?_, ?_⟩
  · simp [to_checksum_address, run_ok k s h]
  · have hlow48 : pyLower 48 = 48 := rfl
    have hlow120 : pyLower 120 = 120 := rfl
    simp only [List.map_cons, hlow48, hlow120,
      checksummed_map_pyLower (bytesToHex (k ((strip0x s).map pyLower)))
        ((strip0x s).map pyLower) hbhex 0]

/-- Witness for C3 at the concrete collaborator and body. -/
theorem C3_witness :
    ∃ out, to_checksum_address keccak0 (.str exBody) = .ok out ∧
      out.map pyLower = 48 :: 120 :: (strip0x exBody).map pyLower :=
  C3_digit_preservation keccak0 exBody (by decide)

/-- Claim C4: for every accepted input the returned string has length
exactly 42 and begins with the marker 0x. -/
theorem C4_length_and_marker (k : List Nat → List Nat) (s : List Nat)
    (h : validBody (strip0x s) = true) :
    ∃ out, to_checksum_address k (.str s) = .ok out ∧
      out.length = 42 ∧ out.take 2 = [48, 120] := by
  obtain ⟨hblen, hbhex⟩ := body_facts s h
  refine ⟨48 :: 120 ::
      checksummed (bytesToHex (k ((strip0x s).map pyLower))) 0 ((strip0x s).map pyLower),
    ?_, ?_, rfl⟩
  · simp [to_checksum_address, run_ok k s h]
  · simp [checksummed_length, hblen]

/-- Witness for C4 at the concrete collaborator and body. -/
theorem C4_witness :
    ∃ out, to_checksum_address keccak0 (.str exBody) = .ok out ∧
      out.length = 42 ∧ out.take 2 = [48, 120] :=
  C4_length_and_marker keccak0 exBody (by decide)

/-- Claim C5: for every valid forty-character hex body X, the function
gives the same result on X, on its lowercased form, and on its
uppercased form: the result is invariant under the case of the hex
letters of the input. -/
theorem C5_input_case_insensitive (k : List Nat → List Nat) (X : List Nat)
    (h : validBody X = true) :
    to_checksum_address k (.str (X.map pyLower)) = to_checksum_address k (.str X) ∧
    to_checksum_address k (.str (X.map pyUpper)) = to_checksum_address k (.str X) := by
  have hX : strip0x X = X := strip0x_of_validBody X h
  have hL : validBody (X.map pyLower) = true := validBody_map_pyLower X h
  have hU : validBody (X.map pyUpper) = true := validBody_map_pyUpper X h
  have hXs : validBody (strip0x X) = true := by rw [hX]; exact h
  have hLs : validBody (strip0x (X.map pyLower)) = true := by
    rw [strip0x_of_validBody _ hL]; exact hL
  have hUs : validBody (strip0x (X.map pyUpper)) = true := by
    rw [strip0x_of_validBody _ hU]; exact hU
  have hcompL : (X.map pyLower).map pyLower = X.map pyLower := by
    rw [List.map_map]
    exact List.map_congr_left fun a _ => pyLower_pyLower a
  have hcompU : (X.map pyUpper).map pyLower = X.map pyLower := by
    rw [List.map_map]
    exact List.map_congr_left fun a _ => pyLower_pyUpper a
  have e2 := run_ok k X hXs
  rw [hX] at e2
  constructor
  · have e1 := run_ok k (X.map pyLower) hLs
    rw [strip0x_of_validBody _ hL, hcompL] at e1
    simp [to_checksum_address, e1, e2]
  · have e1 := run_ok k (X.map pyUpper) hUs
    rw [strip0x_of_validBody _ hU, hcompU] at e1
    simp [to_checksum_address, e1, e2]

/-- Witness for C5 at the concrete collaborator and body. -/
theorem C5_witness :
    to_checksum_address keccak0 (.str (exBody.map pyLower)) =
        to_checksum_address keccak0 (.str exBody) ∧
      to_checksum_address keccak0 (.str (exBody.map pyUpper)) =
        to_checksum_address keccak0 (.str exBody) :=
  C5_input_case_insensitive keccak0 exBody (by decide)

/-- Claim C6: for every valid forty-character hex body, the function
gives the same result with and without the 0x marker on the input. -/
theorem C6_marker_optional (k : List Nat → List Nat) (b : List Nat)
    (h : validBody b = true) :
    to_checksum_address k (.str (48 :: 120 :: b)) = to_checksum_address k (.str b) := by
  have h1 : strip0x (48 :: 120 :: b) = b := strip0x_cons_marker b
  have h2 : strip0x b = b := strip0x_of_validBody b h
  have hb1 : validBody (strip0x (48 :: 120 :: b)) = true := by rw [h1]; exact h
  have hb2 : validBody (strip0x b) = true := by rw [h2]; exact h
  have e1 := run_ok k (48 :: 120 :: b) hb1
  have e2 := run_ok k b hb2
  rw [h1] at e1
  rw [h2] at e2
  simp [to_checksum_address, e1, e2]

/-- Witness for C6 at the concrete collaborator and body. -/
theorem C6_witness :
    to_checksum_address keccak0 (.str (48 :: 120 :: exBody)) =
      to_checksum_address keccak0 (.str exBody) :=
  C6_marker_optional keccak0 exBody (by decide)

/-- Claim C7: for every accepted input, applying the function to its
own output reproduces that output identically. -/
theorem C7_idempotent (k : List Nat → List Nat) (s : List Nat)
    (h : validBody (strip0x s) = true) :
    ∃ out, to_checksum_address k (.str s) = .ok out ∧
      to_checksum_address k (.str out) = .ok out := by
  obtain ⟨hblen, hbhex⟩ := body_facts s h
  set body := (strip0x s).map pyLower with hbody
  set cs := checksummed (bytesToHex (k body)) 0 body with hcs
  refine ⟨48 :: 120 :: cs, ?_, ?_⟩
  · simp [to_checksum_address, run_ok k s h, hbody, hcs]
  · have hcs_lower : cs.map pyLower = body := checksummed_map_pyLower _ _ hbhex 0
    have hcs_hex : ∀ c ∈ cs, isHexDigit c = true :=
      checksummed_all_hex _ _ (fun c hc => isHexDigit_of_lowHex c (hbhex c hc)) 0
    have hcs_len : cs.length = 40 := by rw [hcs, checksummed_length]; exact hblen
    have hvb2 : validBody cs = true := (validBody_iff cs).mpr ⟨hcs_len, hcs_hex⟩
    have hstrip : strip0x (48 :: 120 :: cs) = cs := strip0x_cons_marker cs
    have hvb2s : validBody (strip0x (48 :: 120 :: cs)) = true := by rw [hstrip]; exact hvb2
    have e := run_ok k (48 :: 120 :: cs) hvb2s
    rw [hstrip, hcs_lower] at e
    simp [to_checksum_address, e, hcs]

/-- Witness for C7 at the concrete collaborator and body. -/
theorem C7_witness :
    ∃ out, to_checksum_address keccak0 (.str exBody) = .ok out ∧
      to_checksum_address keccak0 (.str out) = .ok out :=
  C7_idempotent keccak0 exBody (by decide)

/-- Claim C8: the function is deterministic: two calls with identical
inputs and the same hash collaborator have identical outcomes, both
the returned value or raised error and the sequence of hash
invocations; the result depends on nothing but the argument and the
collaborator, since the embedding of the call is a pure function of
exactly those two. -/
theorem C8_deterministic (k : List Nat → List Nat) (v1 v2 : Value) (h : v1 = v2) :
    to_checksum_address_run k v1 = to_checksum_address_run k v2 := by
  rw [h]

/-- Witness for C8 at the concrete collaborator and body. -/
theorem C8_witness :
    to_checksum_address_run keccak0 (.str exBody) =
      to_checksum_address_run keccak0 (.str exBody) :=
  C8_deterministic keccak0 (.str exBody) (.str exBody) rfl

/-- Claim C9: whenever the function raises an error, the hash
collaborator was never invoked during that call: rejected inputs have
zero hashing cost. -/
theorem C9_no_hash_on_reject (k : List Nat → List Nat) (v : Value) (e : Err)
    (h : to_checksum_address k v = .error e) : hashCalls k v = [] := by
  cases v with
  | nonStr => rfl
  | str s =>
    cases hvb : validBody (strip0x s) with
    | true =>
      exfalso
      simp [to_checksum_address, run_ok k s hvb] at h
    | false =>
      simp [hashCalls, run_err k s hvb]

/-- Witness for C9: the empty string is rejected with InvalidFormat and
triggers no hash call. -/
theorem C9_witness : hashCalls keccak0 (.str []) = [] :=
  C9_no_hash_on_reject keccak0 (.str []) .invalidFormat rfl

/-- Claim C10: marker recognition is case-sensitive: with a valid
forty-character hex body b, the input 0X followed by b (uppercase X,
code 88) is not stripped and fails with InvalidFormat, while 0x
followed by b succeeds. -/
theorem C10_marker_case_sensitive (k : List Nat → List Nat) (b : List Nat)
    (h : validBody b = true) :
    to_checksum_address k (.str (48 :: 88 :: b)) = .error .invalidFormat ∧
    ∃ out, to_checksum_address k (.str (48 :: 120 :: b)) = .ok out := by
  have hlen := ((validBody_iff b).mp h).1
  have htake : (48 :: 88 :: b).take 2 = [48, 88] := rfl
  have hstrip : strip0x (48 :: 88 :: b) = 48 :: 88 :: b := by
    unfold strip0x
    rw [htake, if_neg (show ¬([48, 88] = [48, 120]) by decide)]
  have hvb : validBody (strip0x (48 :: 88 :: b)) = false := by
    rw [hstrip]
    have hne : validBody (48 :: 88 :: b) ≠ true := by
      intro hc
      have hl := ((validBody_iff _).mp hc).1
      simp at hl
      omega
    exact Bool.eq_false_iff.mpr hne
  constructor
  · simp [to_checksum_address, run_err k _ hvb]
  · have h1 : strip0x (48 :: 120 :: b) = b := strip0x_cons_marker b
    have hb1 : validBody (strip0x (48 :: 120 :: b)) = true := by rw [h1]; exact h
    exact ⟨48 :: 120 ::
        checksummed (bytesToHex (k ((strip0x (48 :: 120 :: b)).map pyLower))) 0
          ((strip0x (48 :: 120 :: b)).map pyLower),
      by simp [to_checksum_address, run_ok k _ hb1]⟩

/-- Witness for C10 at the concrete collaborator and body. -/
theorem C10_witness :
    to_checksum_address keccak0 (.str (48 :: 88 :: exBody)) = .error .invalidFormat ∧
    ∃ out, to_checksum_address keccak0 (.str (48 :: 120 :: exBody)) = .ok out :=
  C10_marker_case_sensitive keccak0 exBody (by decide)

end EIP55
